import Mathlib

/-!
Verification of the batching/deduplication/ordering engine of the
`updates2bluesky` Cloudflare worker (steveseguin/updates2bluesky).

The repository holds two drafts of the same engine:
* `src/src/worker.js` — the authoritative variant (`BlueskySync` with
  `shouldCombineMessages` / `processFeed` / `createCombinedPost` / `sync`);
* `src/unnamed/part_000` — an earlier variant (`groupEntriesForPosting` /
  `postToBluesky` / `postCombinedEntries` / `sync`).

Both are shallowly embedded below.  JS strings are modelled as Lean `String`
(lengths count code points; every concrete input used in a theorem is ASCII,
where this agrees with JS UTF-16 lengths), JS numbers used as timestamps as
`Int`, and the external collaborators (image upload, `Date` parsing,
`JSON.parse`, the KV store) as explicit function arguments.
-/

namespace Updates2Bluesky

/-- An attachment of a feed entry: `{mime, url}` (feed schema used by both
variants; the optional `desc` field is never read by the code). -/
structure Attachment where
  mime : String
  url : String
deriving DecidableEq, Repr

/-- A feed entry as consumed by the batching engine: `msgid`, a numeric
`timestamp`, `content` (with `""` standing for a missing/falsy JS value) and
an attachment list (with `[]` standing for a missing/falsy list). -/
structure Entry where
  msgid : String
  timestamp : Int
  content : String
  attachments : List Attachment
deriving DecidableEq, Repr

/-! ### `formatText` (src/src/worker.js lines 35–48)

The JS chain of regex replacements is modelled step by step over the
character list of the string. -/

/-- `.replace(/^- /gm, '• ')`: a `"- "` at the start of the string or right
after a newline becomes `"• "`.  The `Bool` argument tracks whether the
current position is at the start of a line. -/
def bulletAux : Bool → List Char → List Char
  | true, '-' :: ' ' :: rest => '•' :: ' ' :: bulletAux false rest
  | _, '\n' :: rest => '\n' :: bulletAux true rest
  | _, c :: rest => c :: bulletAux false rest
  | _, [] => []

/-- Searches for the lazy closing `**` of a bold span: returns the group
characters and the remainder after the closing delimiter.  Fails at a
newline or at the end of the input, matching the JS `(.*?)` group, whose `.`
does not cross newlines. -/
def findBoldClose : List Char → Option (List Char × List Char)
  | [] => none
  | [_] => none
  | c1 :: c2 :: rest =>
    if c1 = '*' ∧ c2 = '*' then some ([], rest)
    else if c1 = '\n' then none
    else (findBoldClose (c2 :: rest)).map fun p => (c1 :: p.1, p.2)

theorem findBoldClose_length :
    ∀ (l : List Char) (g r : List Char), findBoldClose l = some (g, r) → r.length ≤ l.length
  | [], _, _, h => by simp [findBoldClose] at h
  | [_], _, _, h => by simp [findBoldClose] at h
  | c1 :: c2 :: rest, g, r, h => by
    by_cases h1 : c1 = '*' ∧ c2 = '*'
    · simp only [findBoldClose, if_pos h1, Option.some.injEq, Prod.mk.injEq] at h
      obtain ⟨-, hr⟩ := h
      subst hr
      simp only [List.length_cons]
      omega
    · by_cases h2 : c1 = '\n'
      · simp [findBoldClose, h1, h2] at h
      · simp only [findBoldClose, if_neg h1, if_neg h2, Option.map_eq_some'] at h
        obtain ⟨⟨g', r'⟩, hp, hgr⟩ := h
        obtain ⟨-, hr⟩ := Prod.mk.injEq .. ▸ hgr
        have := findBoldClose_length (c2 :: rest) g' r' hp
        subst hr
        simpa using Nat.le_succ_of_le this

/-- `.replace(/\*\*(.*?)\*\*/g, '𝗯$1𝗯')`: each lazily-matched `**…**` span
(no newline inside) has its delimiters replaced by `𝗯`; an unclosed `**`
is left as-is and scanning resumes one character later, as the JS regex
engine does. -/
def boldAux : List Char → List Char
  | [] => []
  | [c] => [c]
  | c1 :: c2 :: rest =>
    if c1 = '*' ∧ c2 = '*' then
      match h : findBoldClose rest with
      | some (g, r) => '𝗯' :: (g ++ '𝗯' :: boldAux r)
      | none => c1 :: boldAux (c2 :: rest)
    else c1 :: boldAux (c2 :: rest)
termination_by l => l.length
decreasing_by
  · have := findBoldClose_length rest g r h
    simp only [List.length_cons]
    omega
  · simp
  · simp

/-- The arrow replacement of `formatText`: every `->` becomes `➜`. -/
def arrowAux : List Char → List Char
  | '-' :: '>' :: rest => '➜' :: arrowAux rest
  | c :: rest => c :: arrowAux rest
  | [] => []

/-- `.replace(/\n{3,}/g, '\n\n')`: any run of three or more newlines
collapses to exactly two. -/
def collapseAux : List Char → List Char
  | '\n' :: '\n' :: '\n' :: rest => collapseAux ('\n' :: '\n' :: rest)
  | c :: rest => c :: collapseAux rest
  | [] => []
termination_by l => l.length

/-- JS `String.prototype.trim`: strips whitespace from both ends. -/
def trimChars (l : List Char) : List Char :=
  ((l.dropWhile Char.isWhitespace).reverse.dropWhile Char.isWhitespace).reverse

/-- `formatText(content)` from src/src/worker.js lines 35–48.  A falsy
`content` (the empty string) yields `''` at once; otherwise the four
replacements are applied in source order, then the result is trimmed. -/
def formatText (content : String) : String :=
  if content = "" then ""
  else String.mk (trimChars (collapseAux (arrowAux (boldAux (bulletAux true content.data)))))

/-! ### `shouldCombineMessages` (src/src/worker.js lines 50–63) -/

/-- `MAX_POST_LENGTH` constant of the authoritative variant (also the
`MAX_POST_LENGTH` local of `groupEntriesForPosting` in the earlier one). -/
def MAX_POST_LENGTH : Nat := 300

/-- `COMBINE_WINDOW` constant of the authoritative variant. -/
def COMBINE_WINDOW : Int := 1000

/-- The `reduce` of worker.js lines 59–60: the sum over the entries of the
formatted content length, a falsy (empty) `content` contributing `0`. -/
def combinedLength (entries : List Entry) : Nat :=
  entries.foldl (fun acc e => acc + (if e.content ≠ "" then (formatText e.content).length else 0)) 0

/-- `shouldCombineMessages(entries)` from src/src/worker.js lines 50–63:
false for fewer than two entries; false when the first entry's timestamp
minus the last entry's exceeds `COMBINE_WINDOW`; otherwise the combined
formatted length must not exceed `MAX_POST_LENGTH`. -/
def shouldCombineMessages : List Entry → Bool
  | [] => false
  | [_] => false
  | e0 :: e1 :: rest =>
    let newest := e0.timestamp
    let oldest := ((e1 :: rest).getLastD e0).timestamp
    if newest - oldest > COMBINE_WINDOW then false
    else combinedLength (e0 :: e1 :: rest) ≤ MAX_POST_LENGTH

/-! ### `processFeed` (src/src/worker.js lines 65–108) -/

/-- The lookahead loop of `processFeed` (worker.js lines 82–93): keep
appending the next entry while `shouldCombineMessages` accepts the grown
batch; returns the finished batch and the unconsumed remainder. -/
def lookaheadBatch : List Entry → List Entry → List Entry × List Entry
  | batch, [] => (batch, [])
  | batch, next :: rest =>
    if shouldCombineMessages (batch ++ [next]) then lookaheadBatch (batch ++ [next]) rest
    else (batch, next :: rest)

theorem lookaheadBatch_snd_length (b l : List Entry) :
    (lookaheadBatch b l).2.length ≤ l.length := by
  induction l generalizing b with
  | nil => simp [lookaheadBatch]
  | cons next rest ih =>
    simp only [lookaheadBatch]
    split
    · exact Nat.le_succ_of_le (ih (b ++ [next]))
    · simp

/-- The per-batch state update of `processFeed` (worker.js lines 99–106):
every batch member's msgid is added to the processed set, and appended to
the posted list when absent (each such push is immediately persisted by
`savePostedMsgIds`, so the returned posted list is also the last one
saved). -/
def recordBatch : List String → List String → List Entry → List String × List String
  | posted, processed, [] => (posted, processed)
  | posted, processed, pe :: rest =>
    let processed' := if processed.contains pe.msgid then processed else processed ++ [pe.msgid]
    let posted' := if posted.contains pe.msgid then posted else posted ++ [pe.msgid]
    recordBatch posted' processed' rest

/-- Result of one `processFeed` call: the emitted batches, the final posted
msgid list (the last value handed to `savePostedMsgIds`) and the processed
set. -/
structure ProcessResult where
  batches : List (List Entry)
  posted : List String
  processed : List String
deriving DecidableEq, Repr

/-- `processFeed(sortedEntries)` from src/src/worker.js lines 65–108.
`posted` is the list loaded by `getPostedMsgIds` at the start of the call;
entries found in it (or already processed this run) are skipped; otherwise
the entry seeds a batch grown by the lookahead, the batch is emitted, and
the state is updated.  (The mid-lookahead `processedMsgIds.add` of line 88
is subsumed by the line-100 loop, which re-adds every batch member before
the next entry is examined.) -/
def processFeedGo (posted processed : List String) (entries : List Entry) : ProcessResult :=
  match entries with
  | [] => { batches := [], posted := posted, processed := processed }
  | e :: rest =>
    if posted.contains e.msgid || processed.contains e.msgid then
      processFeedGo posted processed rest
    else
      let lb := lookaheadBatch [e] rest
      let ps := recordBatch posted processed lb.1
      let r := processFeedGo ps.1 ps.2 lb.2
      { batches := lb.1 :: r.batches, posted := r.posted, processed := r.processed }
termination_by entries.length
decreasing_by
  · simp
  · have := lookaheadBatch_snd_length [e] rest
    simp only [List.length_cons]
    omega

/-! ### `createCombinedPost` (src/src/worker.js lines 111–170)

The external fetch-and-upload capability is an explicit argument
`upload : String → Option String`, mapping an attachment URL to the blob
reference returned by `com.atproto.repo.uploadBlob` (or `none` when the
fetch or the upload fails, in which case `fetchAndUploadImage` returns
`null` and the image is dropped). -/

/-- A resolved image embed, `{alt, image}` as built by the upload helpers. -/
structure ImageRef where
  alt : String
  image : String
deriving DecidableEq, Repr

/-- The record finally sent to `com.atproto.repo.createRecord`: its text and
its embedded images (empty list = no embed attached). -/
structure Post where
  text : String
  images : List ImageRef
deriving DecidableEq, Repr

/-- `attachment.mime.startsWith('image/')`: the mime string's first six
characters are `image/`. -/
def mimeIsImage (m : String) : Bool := m.data.take 6 = "image/".data

/-- JS `Array.prototype.join('\n\n')`. -/
def joinSep : List String → String
  | [] => ""
  | [s] => s
  | s :: rest => s ++ "\n\n" ++ joinSep rest

/-- The text of a combined post (worker.js lines 113–116): each entry's
formatted content, empty strings filtered out, joined with `'\n\n'`. -/
def renderBatchText (entries : List Entry) : String :=
  joinSep ((entries.map fun e => formatText e.content).filter (· ≠ ""))

/-- Inner loop of the image gathering (worker.js lines 127–134): walk one
entry's attachments; an attachment is uploaded only when its mime starts
with `image/` and fewer than 4 images have been gathered so far. -/
def gatherImagesAtt (upload : String → Option String) (images : List ImageRef) :
    List Attachment → List ImageRef
  | [] => images
  | a :: rest =>
    if mimeIsImage a.mime ∧ images.length < 4 then
      match upload a.url with
      | some blobRef =>
        gatherImagesAtt upload (images ++ [{ alt := "Update image", image := blobRef }]) rest
      | none => gatherImagesAtt upload images rest
    else gatherImagesAtt upload images rest

/-- Outer loop of the image gathering (worker.js lines 124–136). -/
def gatherImagesGo (upload : String → Option String) (images : List ImageRef) :
    List Entry → List ImageRef
  | [] => images
  | e :: rest => gatherImagesGo upload (gatherImagesAtt upload images e.attachments) rest

/-- All images gathered for one batch (worker.js lines 123–136). -/
def gatherImages (upload : String → Option String) (entries : List Entry) : List ImageRef :=
  gatherImagesGo upload [] entries

/-- `createCombinedPost(entries)` from src/src/worker.js lines 111–170:
`none` when the rendered text is empty and no entry carries attachments
(the early `return`, so no request is issued); otherwise the post record,
with the placeholder text when the rendered text is empty and the gathered
images as embed. -/
def createCombinedPost (upload : String → Option String) (entries : List Entry) : Option Post :=
  let text := renderBatchText entries
  if text = "" ∧ ¬ entries.any (fun e => !e.attachments.isEmpty) then none
  else some { text := if text = "" then "New update available" else text,
              images := gatherImages upload entries }

/-! ### `sync` (src/src/worker.js lines 201–237) -/

/-- The comparator of worker.js line 213, `(a, b) => b.timestamp - a.timestamp`:
`a` may stay before `b` exactly when the comparator is `≤ 0`, i.e. when
`b.timestamp ≤ a.timestamp`; the JS sort is stable, as `List.mergeSort` is. -/
def syncLE (a b : Entry) : Bool := b.timestamp ≤ a.timestamp

/-- The feed sorted newest-first (worker.js line 213). -/
def sortedFeed (feed : List Entry) : List Entry :=
  feed.mergeSort syncLE

/-- `sortedEntries.filter(entry => !postedMsgIds.includes(entry.msgid))`
(worker.js lines 216 and 219–220, the same expression both times). -/
def newEntriesOf (S0 : List String) (feed : List Entry) : List Entry :=
  (sortedFeed feed).filter fun e => !(S0.contains e.msgid)

/-- Everything one `sync()` run produces: the filtered new entries, the
batches from `processFeed`, the posts actually issued (skipped batches
excluded), `processFeed`'s final posted list, the id list before the
retention trim, and the state handed to the final `savePostedMsgIds`. -/
structure SyncResult where
  newEntries : List Entry
  batches : List (List Entry)
  posts : List Post
  processPosted : List String
  appended : List String
  finalState : List String
deriving DecidableEq, Repr

/-- One `sync()` run of src/src/worker.js lines 201–237 on a validated feed:
load state `S0`, sort newest-first, hand the dedup-filtered entries to
`processFeed` (which re-reads the same `S0` from KV), append the new
msgids, trim to the most recent 1000, save.  Login, feed fetch and the
network sends are external; a run where they all succeed is modelled. -/
def syncRun (upload : String → Option String) (S0 : List String) (feed : List Entry) :
    SyncResult :=
  let newEntries := newEntriesOf S0 feed
  let pr := processFeedGo S0 [] newEntries
  let appended := S0 ++ (newEntriesOf S0 feed).map (·.msgid)
  let finalState := if appended.length > 1000 then appended.drop (appended.length - 1000)
    else appended
  { newEntries := newEntries
    batches := pr.batches
    posts := pr.batches.filterMap (createCombinedPost upload)
    processPosted := pr.posted
    appended := appended
    finalState := finalState }

/-! ### The earlier variant (src/unnamed/part_000) -/

/-- `TIME_WINDOW` local of `groupEntriesForPosting` (one hour in seconds). -/
def TIME_WINDOW : Int := 3600

/-- `formatEntryText(entry)` of part_000 line 109–111: `entry.content.trim()`. -/
def formatEntryText (e : Entry) : String := String.mk (trimChars e.content.data)

/-- The `canCombine` condition of `groupEntriesForPosting` (part_000 lines
83–88): the group is non-empty, the candidate is within `TIME_WINDOW` of the
group's **last** entry, the running length plus the candidate plus a
2-character separator fits `MAX_POST_LENGTH`, and neither the candidate nor
any group member carries attachments. -/
def canCombine (currentGroup : List Entry) (currentLength : Nat) (e : Entry) : Bool :=
  match currentGroup.getLast? with
  | none => false
  | some lastE =>
    decide (|e.timestamp - lastE.timestamp| ≤ TIME_WINDOW) &&
    decide (currentLength + (formatEntryText e).length + 2 ≤ MAX_POST_LENGTH) &&
    e.attachments.isEmpty &&
    !(currentGroup.any fun x => !x.attachments.isEmpty)

/-- The loop of `groupEntriesForPosting` (part_000 lines 79–104), carrying
the running group and its running length. -/
def groupGo (currentGroup : List Entry) (currentLength : Nat) : List Entry → List (List Entry)
  | [] => if currentGroup.isEmpty then [] else [currentGroup]
  | e :: rest =>
    if canCombine currentGroup currentLength e then
      groupGo (currentGroup ++ [e]) (currentLength + (formatEntryText e).length + 2) rest
    else
      let tailGroups := groupGo [e] (formatEntryText e).length rest
      if currentGroup.isEmpty then tailGroups else currentGroup :: tailGroups

/-- `groupEntriesForPosting(entries)` from src/unnamed/part_000 lines 72–107. -/
def groupEntriesForPosting (entries : List Entry) : List (List Entry) :=
  groupGo [] 0 entries

/-- The image loop of part_000's `postToBluesky` (lines 214–227): every
attachment whose mime starts with `image/` is uploaded and, on success,
appended to the embed list — with no cap on the number of images. -/
def postToBlueskyImagesGo (upload : String → Option String) (imageRefs : List ImageRef) :
    List Attachment → List ImageRef
  | [] => imageRefs
  | a :: rest =>
    if mimeIsImage a.mime then
      match upload a.url with
      | some blobRef => postToBlueskyImagesGo upload (imageRefs ++ [{ alt := "", image := blobRef }]) rest
      | none => postToBlueskyImagesGo upload imageRefs rest
    else postToBlueskyImagesGo upload imageRefs rest

/-- The embed list built by part_000's `postToBluesky` for one entry. -/
def postToBlueskyImages (upload : String → Option String) (e : Entry) : List ImageRef :=
  postToBlueskyImagesGo upload [] e.attachments

/-! ### Structural lemmas about the authoritative engine -/

/-- The batch grown by the lookahead extends the seed batch with a prefix of
the remaining input, and the unconsumed remainder is the matching suffix. -/
theorem lookaheadBatch_eq_append (b l : List Entry) :
    ∃ p, (lookaheadBatch b l).1 = b ++ p ∧ l = p ++ (lookaheadBatch b l).2 := by
  induction l generalizing b with
  | nil => exact ⟨[], by simp [lookaheadBatch]⟩
  | cons next rest ih =>
    simp only [lookaheadBatch]
    split
    · obtain ⟨p, h1, h2⟩ := ih (b ++ [next])
      exact ⟨next :: p, by simp [h1], by simpa using h2⟩
    · exact ⟨[], by simp⟩

/-- Every batch the lookahead returns with two or more entries passed
`shouldCombineMessages` at its final size. -/
theorem lookaheadBatch_combine (b l : List Entry)
    (hb : 2 ≤ b.length → shouldCombineMessages b = true) :
    2 ≤ (lookaheadBatch b l).1.length → shouldCombineMessages (lookaheadBatch b l).1 = true := by
  induction l generalizing b with
  | nil => simpa [lookaheadBatch] using hb
  | cons next rest ih =>
    simp only [lookaheadBatch]
    split
    · exact ih (b ++ [next]) (fun _ => by assumption)
    · exact hb

/-- Entries of `processFeed`'s batches come from its input list. -/
theorem processFeedGo_mem (posted processed : List String) (entries : List Entry) :
    ∀ b ∈ (processFeedGo posted processed entries).batches, ∀ x ∈ b, x ∈ entries := by
  induction posted, processed, entries using processFeedGo.induct with
  | case1 posted processed => simp [processFeedGo]
  | case2 posted processed e rest hskip ih =>
    intro b hb x hx
    rw [processFeedGo] at hb
    simp only [if_pos hskip] at hb
    exact List.mem_cons_of_mem e (ih b hb x hx)
  | case3 posted processed e rest hskip lb ps ih =>
    intro b hb x hx
    rw [processFeedGo] at hb
    simp only [if_neg hskip] at hb
    obtain ⟨p, hp1, hp2⟩ := lookaheadBatch_eq_append [e] rest
    rcases List.mem_cons.mp hb with hb | hb
    · subst hb
      rw [hp1] at hx
      rcases List.mem_append.mp hx with hx | hx
      · simp only [List.mem_singleton] at hx
        simp [hx]
      · refine List.mem_cons_of_mem e ?_
        rw [hp2]
        exact List.mem_append_left _ hx
    · have := ih b hb x hx
      refine List.mem_cons_of_mem e ?_
      rw [hp2]
      exact List.mem_append_right p this

/-- Every emitted batch with two or more entries passed
`shouldCombineMessages` at its final size. -/
theorem processFeedGo_combine (posted processed : List String) (entries : List Entry) :
    ∀ b ∈ (processFeedGo posted processed entries).batches,
      2 ≤ b.length → shouldCombineMessages b = true := by
  induction posted, processed, entries using processFeedGo.induct with
  | case1 posted processed => simp [processFeedGo]
  | case2 posted processed e rest hskip ih =>
    intro b hb
    rw [processFeedGo] at hb
    simp only [if_pos hskip] at hb
    exact ih b hb
  | case3 posted processed e rest hskip lb ps ih =>
    intro b hb
    rw [processFeedGo] at hb
    simp only [if_neg hskip] at hb
    rcases List.mem_cons.mp hb with hb | hb
    · subst hb
      exact lookaheadBatch_combine [e] rest (fun h => by simp at h)
    · exact ih b hb

/-- The descending-timestamp order of the run (`syncLE`, coerced to a
relation on entries). -/
theorem processFeedGo_pairwise (posted processed : List String) (entries : List Entry) :
    entries.Pairwise (syncLE · ·) →
      ∀ b ∈ (processFeedGo posted processed entries).batches, b.Pairwise (syncLE · ·) := by
  induction posted, processed, entries using processFeedGo.induct with
  | case1 posted processed => simp [processFeedGo]
  | case2 posted processed e rest hskip ih =>
    intro hs b hb
    rw [processFeedGo] at hb
    simp only [if_pos hskip] at hb
    exact ih (List.Pairwise.of_cons hs) b hb
  | case3 posted processed e rest hskip lb ps ih =>
    intro hs b hb
    rw [processFeedGo] at hb
    simp only [if_neg hskip] at hb
    obtain ⟨p, hp1, hp2⟩ := lookaheadBatch_eq_append [e] rest
    have hall : (e :: rest).Pairwise (syncLE · ·) := hs
    rcases List.mem_cons.mp hb with hb | hb
    · subst hb
      rw [hp1]
      have hsub : List.Sublist (e :: p) (e :: rest) := by
        conv_rhs => rw [hp2]
        exact List.Sublist.cons₂ e (List.sublist_append_left p _)
      simpa using List.Pairwise.sublist hsub hall
    · have hsuffix : List.Sublist (lookaheadBatch [e] rest).2 (e :: rest) := by
        conv_rhs => rw [hp2]
        exact (List.sublist_append_right p _).cons e
      exact ih (List.Pairwise.sublist hsuffix hall) b hb

/-- `recordBatch` only ever appends to the posted list. -/
theorem recordBatch_posted_mono (posted processed : List String) (bs : List Entry) :
    ∀ m ∈ posted, m ∈ (recordBatch posted processed bs).1 := by
  induction bs generalizing posted processed with
  | nil => simp [recordBatch]
  | cons pe rest ih =>
    intro m hm
    simp only [recordBatch]
    apply ih
    split
    · exact hm
    · exact List.mem_append_left _ hm

/-- After `recordBatch`, every batch member's msgid is in the posted list. -/
theorem recordBatch_posted_mem (posted processed : List String) (bs : List Entry) :
    ∀ pe ∈ bs, pe.msgid ∈ (recordBatch posted processed bs).1 := by
  induction bs generalizing posted processed with
  | nil => simp
  | cons pe rest ih =>
    intro x hx
    rcases List.mem_cons.mp hx with hx | hx
    · subst hx
      simp only [recordBatch]
      apply recordBatch_posted_mono
      split
      · next hc => simpa using hc
      · exact List.mem_append_right _ (List.mem_singleton.mpr rfl)
    · simp only [recordBatch]
      exact ih _ _ x hx

/-- `processFeed` only ever appends to the posted list. -/
theorem processFeedGo_posted_mono (posted processed : List String) (entries : List Entry) :
    ∀ m ∈ posted, m ∈ (processFeedGo posted processed entries).posted := by
  induction posted, processed, entries using processFeedGo.induct with
  | case1 posted processed => simp [processFeedGo]
  | case2 posted processed e rest hskip ih =>
    intro m hm
    rw [processFeedGo]
    simp only [if_pos hskip]
    exact ih m hm
  | case3 posted processed e rest hskip lb ps ih =>
    intro m hm
    rw [processFeedGo]
    simp only [if_neg hskip]
    exact ih m (recordBatch_posted_mono _ _ _ m hm)

/-- Every entry of every emitted batch has its msgid recorded in the posted
list `processFeed` ends with (the last list handed to `savePostedMsgIds`). -/
theorem processFeedGo_posted_of_batch (posted processed : List String) (entries : List Entry) :
    ∀ b ∈ (processFeedGo posted processed entries).batches, ∀ x ∈ b,
      x.msgid ∈ (processFeedGo posted processed entries).posted := by
  induction posted, processed, entries using processFeedGo.induct with
  | case1 posted processed => simp [processFeedGo]
  | case2 posted processed e rest hskip ih =>
    intro b hb x hx
    rw [processFeedGo]
    rw [processFeedGo] at hb
    simp only [if_pos hskip] at hb ⊢
    exact ih b hb x hx
  | case3 posted processed e rest hskip lb ps ih =>
    intro b hb x hx
    rw [processFeedGo]
    rw [processFeedGo] at hb
    simp only [if_neg hskip] at hb ⊢
    rcases List.mem_cons.mp hb with hb | hb
    · subst hb
      exact processFeedGo_posted_mono _ _ _ _ (recordBatch_posted_mem _ _ _ x hx)
    · exact ih b hb x hx

/-! ### Length and window characterizations -/

theorem foldl_add_eq (f : Entry → Nat) (acc : Nat) (l : List Entry) :
    l.foldl (fun a e => a + f e) acc = acc + (l.map f).sum := by
  induction l generalizing acc with
  | nil => simp
  | cons e rest ih =>
    simp only [List.foldl_cons, List.map_cons, List.sum_cons]
    rw [ih]
    omega

/-- The `reduce` of `shouldCombineMessages` adds up exactly the formatted
lengths: a falsy content formats to the empty string anyway. -/
theorem combinedLength_eq_sum (l : List Entry) :
    combinedLength l = (l.map fun e => (formatText e.content).length).sum := by
  unfold combinedLength
  rw [foldl_add_eq]
  simp only [Nat.zero_add]
  congr 1
  apply List.map_congr_left
  intro e _
  by_cases hc : e.content = ""
  · simp [hc, formatText]
  · simp [hc]

theorem joinSep_length_cons (s : String) (l : List String) :
    (joinSep (s :: l)).length =
      s.length + (if l.isEmpty then 0 else 2 + (joinSep l).length) := by
  cases l with
  | nil => simp [joinSep]
  | cons t rest =>
    have h2 : "\n\n".length = 2 := rfl
    simp only [joinSep, String.length_append, List.isEmpty_cons, if_neg (by simp : ¬ (false = true))]
    omega

/-- The length of a JS `join('\n\n')`: the summed part lengths plus two per
separator. -/
theorem joinSep_length (l : List String) :
    (joinSep l).length = (l.map String.length).sum + 2 * (l.length - 1) := by
  induction l with
  | nil => simp [joinSep]
  | cons s rest ih =>
    rw [joinSep_length_cons, ih]
    cases rest with
    | nil => simp
    | cons t r2 =>
      simp only [List.isEmpty_cons, List.map_cons, List.sum_cons, List.length_cons]
      rw [if_neg (by simp : ¬ (false = true))]
      omega

/-- Dropping the empty strings does not change the summed length. -/
theorem sum_filter_ne_empty (l : List String) :
    ((l.filter (· ≠ "")).map String.length).sum = (l.map String.length).sum := by
  induction l with
  | nil => simp
  | cons s rest ih =>
    by_cases hs : s = ""
    · subst hs
      simpa using ih
    · simp only [List.filter_cons, List.map_cons, List.sum_cons]
      rw [if_pos (by simpa using hs)]
      simp only [List.map_cons, List.sum_cons]
      omega

/-- The rendered text of `createCombinedPost` is at most the
`shouldCombineMessages` length plus two characters per possible join. -/
theorem renderBatchText_length_le (b : List Entry) :
    (renderBatchText b).length ≤ combinedLength b + 2 * (b.length - 1) := by
  unfold renderBatchText
  rw [joinSep_length, sum_filter_ne_empty, combinedLength_eq_sum]
  have h1 : ((b.map fun e => formatText e.content).filter (· ≠ "")).length ≤ b.length := by
    calc ((b.map fun e => formatText e.content).filter (· ≠ "")).length
        ≤ (b.map fun e => formatText e.content).length := List.length_filter_le _ _
      _ = b.length := List.length_map _ _
  have h2 : (List.map String.length (b.map fun e => formatText e.content)).sum
      = (b.map fun e => (formatText e.content).length).sum := by
    rw [List.map_map]
    rfl
  rw [h2]
  omega

/-- A list accepted by `shouldCombineMessages` keeps the summed formatted
length within `MAX_POST_LENGTH`. -/
theorem shouldCombine_length {l : List Entry} (h : shouldCombineMessages l = true) :
    combinedLength l ≤ MAX_POST_LENGTH := by
  match l with
  | [] => simp [shouldCombineMessages] at h
  | [e] => simp [shouldCombineMessages] at h
  | e0 :: e1 :: rest =>
    rw [shouldCombineMessages] at h
    split at h
    · exact absurd h (by simp)
    · exact of_decide_eq_true h

/-- A list accepted by `shouldCombineMessages` has its first timestamp at
most `COMBINE_WINDOW` above its last. -/
theorem shouldCombine_window {e0 e1 : Entry} {rest : List Entry}
    (h : shouldCombineMessages (e0 :: e1 :: rest) = true) :
    e0.timestamp - ((e1 :: rest).getLastD e0).timestamp ≤ COMBINE_WINDOW := by
  rw [shouldCombineMessages] at h
  split at h
  · exact absurd h (by simp)
  · next hc => omega

/-! ### Timestamp bounds inside a descending batch -/

/-- In a batch sorted newest-first, every member is at most the head. -/
theorem desc_head_bound {e0 : Entry} {tl : List Entry} {x : Entry}
    (hp : (e0 :: tl).Pairwise (syncLE · ·)) (hx : x ∈ e0 :: tl) :
    x.timestamp ≤ e0.timestamp := by
  rcases List.mem_cons.mp hx with hx | hx
  · subst hx
    exact le_refl _
  · have := (List.pairwise_cons.mp hp).1 x hx
    simpa [syncLE] using this

/-- In a batch sorted newest-first, every member is at least the last. -/
theorem desc_last_bound : ∀ (l : List Entry) (d x : Entry),
    (d :: l).Pairwise (syncLE · ·) → x ∈ d :: l →
      (l.getLastD d).timestamp ≤ x.timestamp := by
  intro l
  induction l with
  | nil =>
    intro d x _ hx
    simp only [List.mem_singleton] at hx
    subst hx
    simp
  | cons a tl ih =>
    intro d x hp hx
    have hp' : (a :: tl).Pairwise (syncLE · ·) := (List.pairwise_cons.mp hp).2
    rw [List.getLastD_cons]
    rcases List.mem_cons.mp hx with hx | hx
    · subst hx
      have ha : (tl.getLastD a).timestamp ≤ a.timestamp :=
        ih a a hp' (List.mem_cons_self a tl)
      have hax : a.timestamp ≤ x.timestamp := by
        have := (List.pairwise_cons.mp hp).1 a (List.mem_cons_self a tl)
        simpa [syncLE] using this
      omega
    · exact ih a x hp' hx

/-! ### Image caps and attachment exclusivity -/

/-- The inner image loop never grows the list beyond four. -/
theorem gatherImagesAtt_le (upload : String → Option String) (images : List ImageRef)
    (atts : List Attachment) (h : images.length ≤ 4) :
    (gatherImagesAtt upload images atts).length ≤ 4 := by
  induction atts generalizing images with
  | nil => simpa [gatherImagesAtt] using h
  | cons a rest ih =>
    rw [gatherImagesAtt]
    split
    · next hc =>
      cases hup : upload a.url with
      | some blobRef =>
        apply ih
        simp only [List.length_append, List.length_cons, List.length_nil]
        omega
      | none => exact ih images h
    · exact ih images h

/-- The outer image loop never grows the list beyond four. -/
theorem gatherImagesGo_le (upload : String → Option String) (images : List ImageRef)
    (entries : List Entry) (h : images.length ≤ 4) :
    (gatherImagesGo upload images entries).length ≤ 4 := by
  induction entries generalizing images with
  | nil => simpa [gatherImagesGo] using h
  | cons e rest ih =>
    rw [gatherImagesGo]
    exact ih _ (gatherImagesAtt_le upload images e.attachments h)

/-- `createCombinedPost` embeds at most four images. -/
theorem gatherImages_le (upload : String → Option String) (entries : List Entry) :
    (gatherImages upload entries).length ≤ 4 :=
  gatherImagesGo_le upload [] entries (by simp)

/-- When `canCombine` holds, neither the candidate nor any group member
carries attachments. -/
theorem canCombine_no_attachments {cg : List Entry} {cl : Nat} {e : Entry}
    (h : canCombine cg cl e = true) :
    e.attachments = [] ∧ ∀ x ∈ cg, x.attachments = [] := by
  rw [canCombine] at h
  split at h
  · exact absurd h (by simp)
  · simp only [Bool.and_eq_true, Bool.not_eq_true', List.any_eq_false,
      Bool.not_eq_false] at h
    obtain ⟨⟨⟨-, -⟩, he⟩, hcg⟩ := h
    refine ⟨List.isEmpty_iff.mp he, fun x hx => List.isEmpty_iff.mp (hcg x hx)⟩

/-- Invariant proof for `groupEntriesForPosting`: once a group holds an
entry with attachments it stays a singleton, so every emitted group
containing such an entry has exactly one member. -/
theorem groupGo_attachment_singleton (entries : List Entry) :
    ∀ (cg : List Entry) (cl : Nat),
      ((∃ x ∈ cg, x.attachments ≠ []) → cg.length = 1) →
      ∀ b ∈ groupGo cg cl entries, ∀ x ∈ b, x.attachments ≠ [] → b.length = 1 := by
  induction entries with
  | nil =>
    intro cg cl hinv b hb x hx hatt
    simp only [groupGo] at hb
    split at hb
    · simp at hb
    · simp only [List.mem_singleton] at hb
      subst hb
      exact hinv ⟨x, hx, hatt⟩
  | cons e rest ih =>
    intro cg cl hinv b hb x hx hatt
    simp only [groupGo] at hb
    split at hb
    · next hcc =>
      refine ih (cg ++ [e]) _ ?_ b hb x hx hatt
      intro ⟨y, hy, hyatt⟩
      obtain ⟨he, hcg⟩ := canCombine_no_attachments hcc
      rcases List.mem_append.mp hy with hy | hy
      · exact absurd (hcg y hy) hyatt
      · simp only [List.mem_singleton] at hy
        subst hy
        exact absurd he hyatt
    · split at hb
      · exact ih [e] _ (fun _ => rfl) b hb x hx hatt
      · rcases List.mem_cons.mp hb with hb | hb
        · subst hb
          exact hinv ⟨x, hx, hatt⟩
        · exact ih [e] _ (fun _ => rfl) b hb x hx hatt

/-! ### Feed validation (`fetchJSONFeed`, src/src/worker.js lines 257–284)

The raw JSON records and the platform `Date` parser are modelled
explicitly: `dateParse` maps a timestamp string to `some epoch` when the JS
`new Date(s).getTime()` yields a number, and to `none` when it yields
`NaN` (an unparseable date string). -/

/-- The raw `timestamp` field of a feed record before validation. -/
inductive RawTs where
  | num (n : Int)
  | str (s : String)
  | absent
deriving DecidableEq, Repr

/-- A raw feed record as decoded from JSON, before validation. -/
structure RawEntry where
  msgid : String
  timestamp : RawTs
  content : String
  attachments : List Attachment
deriving DecidableEq, Repr

/-- A JS number as stored in a validated entry's `timestamp`: an integer
epoch or `NaN` (what `new Date(bad).getTime()` returns).  `typeof` either is
`'number'`. -/
inductive JSNum where
  | nan
  | int (n : Int)
deriving DecidableEq, Repr

/-- An entry as it leaves `fetchJSONFeed`'s validation loop: the timestamp
field is always a number afterwards, but possibly `NaN`. -/
structure VEntry where
  msgid : String
  timestamp : JSNum
  content : String
  attachments : List Attachment
deriving DecidableEq, Repr

/-- JS truthiness of the raw timestamp field (`!entry.timestamp` check of
worker.js line 274): `0`, `''` and an absent field are falsy. -/
def tsTruthy : RawTs → Bool
  | .num n => n ≠ 0
  | .str s => s ≠ ""
  | .absent => false

/-- The per-entry validation of `fetchJSONFeed` (worker.js lines 270–281):
errors when `msgid` or `timestamp` is falsy; converts a string timestamp
with `new Date(...).getTime()` — which silently yields `NaN` on an
unparseable string; keeps a numeric timestamp as-is. -/
def validateEntry (dateParse : String → Option Int) (e : RawEntry) : Except String VEntry :=
  if e.msgid = "" then .error "missing msgid"
  else if ¬ tsTruthy e.timestamp then .error "missing timestamp"
  else .ok
    { msgid := e.msgid
      timestamp :=
        match e.timestamp with
        | .str s => match dateParse s with
          | some n => .int n
          | none => .nan
        | .num n => .int n
        | .absent => .nan  -- unreachable: `absent` is falsy and errors above
      content := e.content
      attachments := e.attachments }

/-- The validation loop over the whole feed (`feed.forEach`, worker.js
lines 270–281): the first failing entry aborts the run with its error. -/
def validateFeed (dateParse : String → Option Int) (feed : List RawEntry) :
    Except String (List VEntry) :=
  feed.mapM (validateEntry dateParse)

/-! ### `getPostedMsgIds` (src/src/worker.js lines 371–379)

`JSON.parse` is modelled as an explicit argument
`parse : String → Option JSONVal`, `none` standing for a thrown
`SyntaxError` (caught by the `try`/`catch`).  The stored blob is
`Option String` (`null` or the stored string). -/

/-- A parsed JSON value, as returned by `JSON.parse`. -/
inductive JSONVal where
  | null
  | bool (b : Bool)
  | num (n : Int)
  | str (s : String)
  | arr (xs : List JSONVal)

/-- Whether a parsed JSON value is an array. -/
def JSONVal.isArr : JSONVal → Bool
  | .arr _ => true
  | _ => false

/-- `getPostedMsgIds()` from src/src/worker.js lines 371–379: a falsy
stored value (absent key or empty string) yields `[]`; a parse failure is
caught and yields `[]`; otherwise the parsed value is returned **as-is**,
whatever shape it has. -/
def getPostedMsgIds (parse : String → Option JSONVal) (stored : Option String) : JSONVal :=
  match stored with
  | none => .arr []
  | some s =>
    if s = "" then .arr []
    else
      match parse s with
      | some v => v
      | none => .arr []

/-! ### Claim C1 — idempotence of `sync` -/

/-- A member of the feed keeps its msgid in the saved state when the
retention trim has nothing to drop. -/
theorem syncRun_finalState_no_trim (upload : String → Option String) (S0 : List String)
    (feed : List Entry) (h : S0.length + (newEntriesOf S0 feed).length ≤ 1000) :
    (syncRun upload S0 feed).finalState = S0 ++ (newEntriesOf S0 feed).map (·.msgid) := by
  simp only [syncRun]
  rw [if_neg]
  simp only [List.length_append, List.length_map]
  omega

theorem mem_finalState (upload : String → Option String) (S0 : List String)
    (feed : List Entry) (h : S0.length + (newEntriesOf S0 feed).length ≤ 1000) :
    ∀ e ∈ feed, e.msgid ∈ (syncRun upload S0 feed).finalState := by
  intro e he
  rw [syncRun_finalState_no_trim upload S0 feed h]
  by_cases hc : S0.contains e.msgid
  · exact List.mem_append_left _ (by simpa using hc)
  · refine List.mem_append_right _ ?_
    refine List.mem_map.mpr ⟨e, ?_, rfl⟩
    unfold newEntriesOf
    refine List.mem_filter.mpr ⟨?_, ?_⟩
    · unfold sortedFeed
      exact List.mem_mergeSort.mpr he
    · simpa using hc

/-- A run that finds no new entries emits no batch and no post. -/
theorem syncRun_of_no_new (upload : String → Option String) (S : List String)
    (feed : List Entry) (h : newEntriesOf S feed = []) :
    (syncRun upload S feed).newEntries = [] ∧
    (syncRun upload S feed).batches = [] ∧
    (syncRun upload S feed).posts = [] := by
  simp [syncRun, h, processFeedGo]

/-- Claim C1 (amended): running `sync` twice on the same unchanged feed
produces zero new posts on the second run — every feed entry is filtered
out by the dedup check before batching — **provided** the initial dedup
state together with the feed's new entries fits the 1000-entry retention
cap, so the final trim drops nothing.  (The counterexample
`claim1_counterexample` shows the unrestricted claim fails when the trim
drops a msgid the feed still carries.) -/
theorem claim1_theorem (upload : String → Option String) (S0 : List String)
    (feed : List Entry) (h : S0.length + (newEntriesOf S0 feed).length ≤ 1000) :
    (syncRun upload (syncRun upload S0 feed).finalState feed).newEntries = [] ∧
    (syncRun upload (syncRun upload S0 feed).finalState feed).batches = [] ∧
    (syncRun upload (syncRun upload S0 feed).finalState feed).posts = [] := by
  have hempty : newEntriesOf (syncRun upload S0 feed).finalState feed = [] := by
    unfold newEntriesOf
    rw [List.filter_eq_nil_iff]
    intro e he
    have hmem : e ∈ feed := by
      unfold sortedFeed at he
      exact List.mem_mergeSort.mp he
    have := mem_finalState upload S0 feed h e hmem
    simpa using this
  exact syncRun_of_no_new upload _ feed hempty

/-- The upload oracle for concrete runs: every network send fails (its
result never matters for the properties below). -/
def uNone : String → Option String := fun _ => none

/-- An initial dedup state holding 1001 msgids `"0"`, …, `"1000"`. -/
def c1State : List String := (List.range 1001).map (fun n => toString n)

/-- A one-entry feed whose entry carries the oldest msgid of `c1State`. -/
def c1Entry : Entry := { msgid := "0", timestamp := 5, content := "x", attachments := [] }

set_option maxRecDepth 100000 in
unseal boldAux collapseAux processFeedGo List.merge List.mergeSort in
/-- Claim C1 (counterexample): with a persisted dedup state of 1001 ids and
an unchanged one-entry feed repeating the oldest id, the first run trims
that id away, so the second run batches and posts the entry again — the
second run does not produce zero new posts. -/
theorem claim1_counterexample :
    ((syncRun uNone (syncRun uNone c1State [c1Entry]).finalState [c1Entry]).posts).length = 1 ∧
    (syncRun uNone (syncRun uNone c1State [c1Entry]).finalState [c1Entry]).newEntries ≠ [] := by
  decide

/-- A fresh one-entry feed for the C1 witness. -/
def c1wEntry : Entry := { msgid := "w1", timestamp := 0, content := "hello", attachments := [] }

set_option maxRecDepth 10000 in
unseal boldAux collapseAux processFeedGo List.merge List.mergeSort in
/-- Claim C1 (witness): the amended theorem applied to the empty initial
state and a one-entry feed. -/
theorem claim1_witness :
    (syncRun uNone (syncRun uNone [] [c1wEntry]).finalState [c1wEntry]).newEntries = [] ∧
    (syncRun uNone (syncRun uNone [] [c1wEntry]).finalState [c1wEntry]).batches = [] ∧
    (syncRun uNone (syncRun uNone [] [c1wEntry]).finalState [c1wEntry]).posts = [] :=
  claim1_theorem uNone [] [c1wEntry] (by decide)

/-! ### Claim C2 — dedup invariant -/

/-- Claim C2 (confirmed): an entry whose msgid is in the dedup state loaded
at run start is a member of no batch produced by that run. -/
theorem claim2_theorem (upload : String → Option String) (S0 : List String)
    (feed : List Entry) (e : Entry) (b : List Entry)
    (hb : b ∈ (syncRun upload S0 feed).batches) (he : e.msgid ∈ S0) : e ∉ b := by
  intro hmem
  have hb' : b ∈ (processFeedGo S0 [] (newEntriesOf S0 feed)).batches := by
    simpa [syncRun] using hb
  have hx : e ∈ newEntriesOf S0 feed :=
    processFeedGo_mem S0 [] (newEntriesOf S0 feed) b hb' e hmem
  have := (List.mem_filter.mp hx).2
  simp only [Bool.not_eq_true'] at this
  have hnot : e.msgid ∉ S0 := by simpa [List.contains] using this
  exact hnot he

/-- A msgid already posted before the C2 witness run. -/
def c2Seen : Entry := { msgid := "w2a", timestamp := 3, content := "old", attachments := [] }

/-- The one new entry of the C2 witness feed. -/
def c2New : Entry := { msgid := "w2b", timestamp := 3, content := "new", attachments := [] }

set_option maxRecDepth 10000 in
unseal boldAux collapseAux processFeedGo List.merge List.mergeSort in
/-- Claim C2 (witness): the theorem applied to a run whose feed yields the
single batch `[c2New]`, for the already-posted entry `c2Seen`. -/
theorem claim2_witness : c2Seen ∉ [c2New] :=
  claim2_theorem uNone ["w2a"] [c2New] c2Seen [c2New] (by decide) (by decide)

/-! ### Claim C3 — attachment exclusivity -/

/-- An image attachment used by the C3 counterexample run. -/
def c3Att : Attachment := { mime := "image/png", url := "http://example/1.png" }

/-- A text-only entry for the C3 counterexample. -/
def c3Text : Entry := { msgid := "a1", timestamp := 0, content := "hi", attachments := [] }

/-- An entry carrying one image attachment for the C3 counterexample. -/
def c3Image : Entry := { msgid := "a2", timestamp := 0, content := "yo", attachments := [c3Att] }

set_option maxRecDepth 10000 in
unseal boldAux collapseAux processFeedGo List.merge List.mergeSort in
/-- Claim C3 (counterexample): the authoritative engine's
`shouldCombineMessages` never looks at attachments, so a run combines a
text entry and an attachment-carrying entry into one two-entry batch —
refuting attachment exclusivity for the batching engine. -/
theorem claim3_counterexample :
    (syncRun uNone [] [c3Text, c3Image]).batches = [[c3Text, c3Image]] ∧
    c3Image.attachments ≠ [] ∧ ([c3Text, c3Image].length = 1 → False) := by
  decide

/-- Claim C3 (amended): attachment exclusivity holds for the earlier
variant's `groupEntriesForPosting` — whose `canCombine` rejects candidates
or groups with attachments — while the authoritative
`shouldCombineMessages` imposes no attachment restriction: every group it
emits that contains an entry with one or more attachments has exactly one
member. -/
theorem claim3_theorem (entries : List Entry) (b : List Entry) (x : Entry)
    (hb : b ∈ groupEntriesForPosting entries) (hx : x ∈ b)
    (hatt : x.attachments ≠ []) : b.length = 1 :=
  groupGo_attachment_singleton entries [] 0 (by simp) b hb x hx hatt

/-- Claim C3 (witness): the amended theorem applied to a one-entry input
with an attachment. -/
theorem claim3_witness : ([c3Image] : List Entry).length = 1 :=
  claim3_theorem [c3Image] [c3Image] c3Image (by decide) (by decide) (by decide)

/-! ### Claim C4 — batch length budget -/

/-- A 150-character content string. -/
def c4Body : String := String.mk (List.replicate 150 'a')

/-- First 150-character entry of the C4 counterexample. -/
def c4E1 : Entry := { msgid := "d1", timestamp := 0, content := c4Body, attachments := [] }

/-- Second 150-character entry of the C4 counterexample. -/
def c4E2 : Entry := { msgid := "d2", timestamp := 0, content := c4Body, attachments := [] }

set_option maxRecDepth 40000 in
unseal boldAux collapseAux processFeedGo List.merge List.mergeSort in
/-- Claim C4 (counterexample): `shouldCombineMessages` adds up the
formatted lengths **without** the `'\n\n'` separators, so two
150-character entries are combined into one batch whose rendered text is
302 characters — over the 300-character limit although the batch is not a
singleton. -/
theorem claim4_counterexample :
    (syncRun uNone [] [c4E1, c4E2]).batches = [[c4E1, c4E2]] ∧
    (renderBatchText [c4E1, c4E2]).length = 302 ∧
    ((renderBatchText [c4E1, c4E2]).length ≤ MAX_POST_LENGTH → False) := by
  decide

/-- Claim C4 (amended): for every batch of two or more entries emitted by
the authoritative run, the **sum** of the entries' formatted text lengths
(separators excluded — that is what the code's check bounds) is at most
300, so the rendered text with its two-character joins is at most
`300 + 2·(k−1)`; a rendered batch can thus exceed 300 by two characters
per join, and a singleton may exceed the limit outright. -/
theorem claim4_theorem (upload : String → Option String) (S0 : List String)
    (feed : List Entry) (b : List Entry)
    (hb : b ∈ (syncRun upload S0 feed).batches) (hlen : 2 ≤ b.length) :
    combinedLength b ≤ MAX_POST_LENGTH ∧
    (renderBatchText b).length ≤ MAX_POST_LENGTH + 2 * (b.length - 1) := by
  have hb' : b ∈ (processFeedGo S0 [] (newEntriesOf S0 feed)).batches := by
    simpa [syncRun] using hb
  have hc := processFeedGo_combine S0 [] (newEntriesOf S0 feed) b hb' hlen
  have h1 := shouldCombine_length hc
  have h2 := renderBatchText_length_le b
  exact ⟨h1, by omega⟩

/-- First short entry of the C4 witness. -/
def c4W1 : Entry := { msgid := "w4a", timestamp := 10, content := "aa", attachments := [] }

/-- Second short entry of the C4 witness. -/
def c4W2 : Entry := { msgid := "w4b", timestamp := 10, content := "bb", attachments := [] }

set_option maxRecDepth 10000 in
unseal boldAux collapseAux processFeedGo List.merge List.mergeSort in
/-- Claim C4 (witness): the amended theorem applied to a run that combines
two short entries into one batch. -/
theorem claim4_witness :
    combinedLength [c4W1, c4W2] ≤ MAX_POST_LENGTH ∧
    (renderBatchText [c4W1, c4W2]).length ≤ MAX_POST_LENGTH + 2 * ([c4W1, c4W2].length - 1) :=
  claim4_theorem uNone [] [c4W1, c4W2] [c4W1, c4W2] (by decide) (by decide)

/-! ### Claim C5 — batch time window -/

/-- First entry (t = 0) of the C5 counterexample. -/
def c5E1 : Entry := { msgid := "g1", timestamp := 0, content := "a", attachments := [] }

/-- Second entry (t = 3600) of the C5 counterexample. -/
def c5E2 : Entry := { msgid := "g2", timestamp := 3600, content := "b", attachments := [] }

/-- Third entry (t = 7200) of the C5 counterexample. -/
def c5E3 : Entry := { msgid := "g3", timestamp := 7200, content := "c", attachments := [] }

/-- Claim C5 (counterexample): the earlier variant's
`groupEntriesForPosting` only compares each candidate with the **last**
group member, so three entries at t = 0, 3600, 7200 chain into one group
whose extreme timestamps differ by 7200 — beyond its own `TIME_WINDOW` of
3600. -/
theorem claim5_counterexample :
    groupEntriesForPosting [c5E1, c5E2, c5E3] = [[c5E1, c5E2, c5E3]] ∧
    (|c5E3.timestamp - c5E1.timestamp| ≤ TIME_WINDOW → False) := by
  decide

/-- `newEntriesOf` is sorted newest-first: the mergeSort comparator is
transitive and total, and filtering preserves the order. -/
theorem newEntriesOf_pairwise (S0 : List String) (feed : List Entry) :
    (newEntriesOf S0 feed).Pairwise (syncLE · ·) := by
  apply List.Pairwise.filter
  apply List.sorted_mergeSort
  · intro a b c hab hbc
    simp only [syncLE, decide_eq_true_eq] at *
    omega
  · intro a b
    simp only [syncLE, Bool.or_eq_true, decide_eq_true_eq]
    omega

/-- Claim C5 (amended): in the authoritative run — which sorts the feed
newest-first and checks the first-to-last spread of every grown batch —
any two entries of an emitted batch are within `COMBINE_WINDOW` (1000) of
each other; the earlier variant's engine only keeps **adjacent** entries
within its window, and its batches can spread wider (see the
counterexample). -/
theorem claim5_theorem (upload : String → Option String) (S0 : List String)
    (feed : List Entry) (b : List Entry) (x y : Entry)
    (hb : b ∈ (syncRun upload S0 feed).batches) (hx : x ∈ b) (hy : y ∈ b) :
    |x.timestamp - y.timestamp| ≤ COMBINE_WINDOW := by
  have hb' : b ∈ (processFeedGo S0 [] (newEntriesOf S0 feed)).batches := by
    simpa [syncRun] using hb
  have hpair : b.Pairwise (syncLE · ·) :=
    processFeedGo_pairwise S0 [] (newEntriesOf S0 feed) (newEntriesOf_pairwise S0 feed) b hb'
  match b, hpair, hx, hy with
  | [], _, hx, _ => exact absurd hx (List.not_mem_nil x)
  | [a], _, hx, hy =>
    have hx' : x = a := by simpa using hx
    have hy' : y = a := by simpa using hy
    subst hx'
    subst hy'
    simp [COMBINE_WINDOW]
  | e0 :: e1 :: rest, hpair, hx, hy =>
    have hcomb := processFeedGo_combine S0 [] (newEntriesOf S0 feed) _ hb' (by simp)
    have hwin := shouldCombine_window hcomb
    have hx1 := desc_head_bound hpair hx
    have hy1 := desc_head_bound hpair hy
    have hx2 := desc_last_bound (e1 :: rest) e0 x hpair hx
    have hy2 := desc_last_bound (e1 :: rest) e0 y hpair hy
    rw [abs_le]
    constructor <;> omega

/-- First entry of the C5 witness batch. -/
def c5W1 : Entry := { msgid := "w5a", timestamp := 400, content := "a", attachments := [] }

/-- Second entry of the C5 witness batch. -/
def c5W2 : Entry := { msgid := "w5b", timestamp := 0, content := "b", attachments := [] }

set_option maxRecDepth 10000 in
unseal boldAux collapseAux processFeedGo List.merge List.mergeSort in
/-- Claim C5 (witness): the amended theorem applied to a run that combines
two entries 400 time-units apart. -/
theorem claim5_witness : |c5W1.timestamp - c5W2.timestamp| ≤ COMBINE_WINDOW :=
  claim5_theorem uNone [] [c5W1, c5W2] [c5W1, c5W2] c5W1 c5W2
    (by decide) (by decide) (by decide)

/-! ### Claim C6 — four-image cap -/

/-- Claim C6 (amended): the authoritative composer `createCombinedPost`
embeds at most four images in any post request, whatever the batch and
however uploads behave; the earlier variant's `postToBluesky` has **no**
such cap (see the counterexample). -/
theorem claim6_theorem (upload : String → Option String) (b : List Entry) (p : Post)
    (h : createCombinedPost upload b = some p) : p.images.length ≤ 4 := by
  rw [createCombinedPost] at h
  split at h
  · exact absurd h (by simp)
  · rw [Option.some.injEq] at h
    subst h
    exact gatherImages_le upload b

/-- An upload oracle for which every upload succeeds, returning the URL as
the blob reference. -/
def uEcho : String → Option String := fun u => some u

/-- Five image attachments for the C6 counterexample. -/
def c6Atts : List Attachment :=
  [ { mime := "image/png", url := "p0" }, { mime := "image/png", url := "p1" },
    { mime := "image/png", url := "p2" }, { mime := "image/png", url := "p3" },
    { mime := "image/png", url := "p4" } ]

/-- An entry with five image attachments. -/
def c6Entry : Entry := { msgid := "e5", timestamp := 0, content := "pics", attachments := c6Atts }

/-- Claim C6 (counterexample): the earlier variant's `postToBluesky`
uploads and embeds **all** image attachments — five here — so the
four-image cap does not hold for every post-composing path in the
repository. -/
theorem claim6_counterexample :
    (postToBlueskyImages uEcho c6Entry).length = 5 ∧
    ((postToBlueskyImages uEcho c6Entry).length ≤ 4 → False) := by
  decide

/-- Six image attachments for the C6 witness. -/
def c6WAtts : List Attachment :=
  [ { mime := "image/png", url := "q0" }, { mime := "image/png", url := "q1" },
    { mime := "image/png", url := "q2" }, { mime := "image/png", url := "q3" },
    { mime := "image/png", url := "q4" }, { mime := "image/png", url := "q5" } ]

/-- An entry with six image attachments. -/
def c6WEntry : Entry :=
  { msgid := "w6", timestamp := 0, content := "many", attachments := c6WAtts }

/-- The post `createCombinedPost` builds for the six-image batch: only the
first four images survive. -/
def c6WPost : Post :=
  { text := "many"
    images := [ { alt := "Update image", image := "q0" }, { alt := "Update image", image := "q1" },
                { alt := "Update image", image := "q2" }, { alt := "Update image", image := "q3" } ] }

unseal boldAux collapseAux in
/-- Claim C6 (witness): the amended theorem applied to the six-image batch
and the concrete post composed for it. -/
theorem claim6_witness : c6WPost.images.length ≤ 4 :=
  claim6_theorem uEcho [c6WEntry] c6WPost (by decide)

/-! ### Claim C7 — retention cap -/

/-- Claim C7 (confirmed): after any run, the saved dedup list holds at most
1000 msgids; it is a suffix of the pre-trim list (initial state plus the
newly appended msgids, in order), and when the trim fired it holds exactly
the 1000 most-recently-appended ones. -/
theorem claim7_theorem (upload : String → Option String) (S0 : List String)
    (feed : List Entry) :
    (syncRun upload S0 feed).finalState.length ≤ 1000 ∧
    (∃ dropped, (syncRun upload S0 feed).appended =
        dropped ++ (syncRun upload S0 feed).finalState) ∧
    (1000 < (syncRun upload S0 feed).appended.length →
      (syncRun upload S0 feed).finalState.length = 1000) := by
  simp only [syncRun]
  by_cases h : (S0 ++ (newEntriesOf S0 feed).map (·.msgid)).length > 1000
  · rw [if_pos h]
    refine ⟨?_, ⟨(S0 ++ (newEntriesOf S0 feed).map (·.msgid)).take
      ((S0 ++ (newEntriesOf S0 feed).map (·.msgid)).length - 1000), ?_⟩, ?_⟩
    · rw [List.length_drop]
      omega
    · exact (List.take_append_drop _ _).symm
    · intro _
      rw [List.length_drop]
      omega
  · rw [if_neg h]
    exact ⟨by omega, ⟨[], by simp⟩, fun hc => absurd hc h⟩

/-! ### Claim C8 — timestamp validation -/

/-- Claim C8 (amended): validation normalizes a string timestamp with the
platform date parser and **never fails on an unparseable string** — the
parser's `NaN` is stored silently; after successful validation the
timestamp is always numeric (an integer epoch, or `NaN` for an unparseable
string).  Validation fails only on a missing/falsy `msgid` or `timestamp`.
(The claim's `MalformedTimestamp` failure does not exist in the code; see
the counterexample.) -/
theorem claim8_theorem (dateParse : String → Option Int) (e : RawEntry) (s : String)
    (hm : e.msgid ≠ "") (ht : e.timestamp = RawTs.str s) (hs : s ≠ "") :
    validateEntry dateParse e = .ok
      { msgid := e.msgid
        timestamp := match dateParse s with
          | some n => JSNum.int n
          | none => JSNum.nan
        content := e.content
        attachments := e.attachments } := by
  rw [validateEntry, if_neg hm, if_neg (by simp [tsTruthy, ht, hs]), ht]

/-- A date parser that fails on every string (models `new Date(s)` over
strings the platform cannot parse, where `getTime()` yields `NaN`). -/
def dpNone : String → Option Int := fun _ => none

/-- A raw entry whose timestamp string is unparseable. -/
def c8Raw : RawEntry :=
  { msgid := "m1", timestamp := .str "not-a-date", content := "", attachments := [] }

/-- Claim C8 (counterexample): on a feed whose only entry carries an
unparseable timestamp string, validation **succeeds** — no
`MalformedTimestamp` (nor any other) error is raised; the entry survives
with timestamp `NaN`. -/
theorem claim8_counterexample :
    dpNone "not-a-date" = none ∧
    validateFeed dpNone [c8Raw] =
      .ok [{ msgid := "m1", timestamp := .nan, content := "", attachments := [] }] :=
  ⟨rfl, rfl⟩

/-- A date parser that recognizes exactly the ISO date used by the C8
witness. -/
def dpIso : String → Option Int := fun s => if s = "2024-01-01" then some 1704067200000 else none

/-- A raw entry with a parseable timestamp string. -/
def c8WRaw : RawEntry :=
  { msgid := "w8", timestamp := .str "2024-01-01", content := "hi", attachments := [] }

/-- Claim C8 (witness): the amended theorem applied to the parseable-string
entry. -/
theorem claim8_witness :
    validateEntry dpIso c8WRaw = .ok
      { msgid := c8WRaw.msgid
        timestamp := match dpIso "2024-01-01" with
          | some n => JSNum.int n
          | none => JSNum.nan
        content := c8WRaw.content
        attachments := c8WRaw.attachments } :=
  claim8_theorem dpIso c8WRaw "2024-01-01" (by decide) rfl (by decide)

/-! ### Claim C9 — loading the dedup state -/

/-- Claim C9 (amended): `getPostedMsgIds` yields the empty array when the
stored blob is absent (or empty) and when parsing fails — corrupt state is
empty history, never a fatal error; but when the blob parses, the parsed
JSON value is returned **as-is**, with no check that it is an array of
msgids (see the counterexample). -/
theorem claim9_theorem (parse : String → Option JSONVal) (s : String) (v : JSONVal) :
    getPostedMsgIds parse none = JSONVal.arr [] ∧
    (parse s = none → getPostedMsgIds parse (some s) = JSONVal.arr []) ∧
    (s ≠ "" → parse s = some v → getPostedMsgIds parse (some s) = v) := by
  refine ⟨rfl, ?_, ?_⟩
  · intro hp
    simp only [getPostedMsgIds]
    split
    · rfl
    · simp [hp]
  · intro hs hp
    simp [getPostedMsgIds, if_neg hs, hp]

/-- A parse oracle behaving as `JSON.parse` on the two blobs the C9
theorems use: the text `42` parses to the number 42 (ECMA-404), anything
else here fails. -/
def parse42 : String → Option JSONVal := fun s => if s = "42" then some (.num 42) else none

/-- Claim C9 (counterexample): with the blob `"42"` stored, loading returns
the JSON number 42, not an (ordered sequence) array of msgids — the code
returns whatever `JSON.parse` produced. -/
theorem claim9_counterexample :
    (getPostedMsgIds parse42 (some "42")).isArr = false := rfl

/-- Claim C9 (witness): the amended theorem applied to the absent blob, an
unparseable blob, and the number blob `"42"`. -/
theorem claim9_witness :
    getPostedMsgIds parse42 none = JSONVal.arr [] ∧
    getPostedMsgIds parse42 (some "garbage") = JSONVal.arr [] ∧
    getPostedMsgIds parse42 (some "42") = JSONVal.num 42 :=
  ⟨(claim9_theorem parse42 "garbage" (JSONVal.num 42)).1,
   (claim9_theorem parse42 "garbage" (JSONVal.num 42)).2.1 rfl,
   (claim9_theorem parse42 "42" (JSONVal.num 42)).2.2 (by decide) rfl⟩

/-! ### Claim C10 — empty batches are consumed but never posted -/

/-- Claim C10 (confirmed): a batch whose entries all format to empty text
and carry no attachments is silently skipped by `createCombinedPost` — no
post request is issued — yet every such entry's msgid still lands in the
posted list `processFeed` persists, so the entries are consumed without
ever being posted. -/
theorem claim10_theorem (upload : String → Option String) (S0 : List String)
    (feed : List Entry) (b : List Entry)
    (hb : b ∈ (syncRun upload S0 feed).batches)
    (hempty : ∀ x ∈ b, formatText x.content = "" ∧ x.attachments = []) :
    createCombinedPost upload b = none ∧
    ∀ x ∈ b, x.msgid ∈ (syncRun upload S0 feed).processPosted := by
  have hb' : b ∈ (processFeedGo S0 [] (newEntriesOf S0 feed)).batches := by
    simpa [syncRun] using hb
  constructor
  · have hT : renderBatchText b = "" := by
      unfold renderBatchText
      have hnil : (b.map fun e => formatText e.content).filter (· ≠ "") = [] := by
        rw [List.filter_eq_nil_iff]
        intro a ha
        obtain ⟨x, hx, rfl⟩ := List.mem_map.mp ha
        simp [(hempty x hx).1]
      rw [hnil]
      rfl
    have hA : b.any (fun e => !e.attachments.isEmpty) = false := by
      rw [List.any_eq_false]
      intro x hx
      simp [(hempty x hx).2]
    simp [createCombinedPost, hT, hA]
  · intro x hx
    have := processFeedGo_posted_of_batch S0 [] (newEntriesOf S0 feed) b hb' x hx
    simpa [syncRun] using this

/-- An entry with empty content and no attachments. -/
def c10Entry : Entry := { msgid := "z10", timestamp := 1, content := "", attachments := [] }

set_option maxRecDepth 10000 in
unseal boldAux collapseAux processFeedGo List.merge List.mergeSort in
/-- Claim C10 (witness): the theorem applied to a run whose feed holds one
empty entry: the batch is skipped, its msgid persisted. -/
theorem claim10_witness :
    createCombinedPost uNone [c10Entry] = none ∧
    ∀ x ∈ [c10Entry], x.msgid ∈ (syncRun uNone [] [c10Entry]).processPosted :=
  claim10_theorem uNone [] [c10Entry] [c10Entry] (by decide) (by decide)

end Updates2Bluesky
